import Mathlib

/-!
Verification development for the splEngine.rs chunk-reading engine.

The engine's stateful reads are embedded as deterministic functions over a
finite trace of read events.  Each event is one of:
* `byte b` — the stream delivers one byte `b` within the idle timeout;
* `tick`   — one idle period of length `TIMEOUT` elapses with no data
  (a timed read observes a timeout; an untimed read keeps waiting);
* `err`    — the byte read completes with a transport (I/O) error.

Rust `String` values are represented as their UTF-8 byte lists (`List Nat`),
together with an explicit UTF-8 validity check mirroring
`String::from_utf8`.  Writes (to the remote stream and to the local stdout
sink) are modelled as always succeeding and are recorded as effect lists;
the trace models the read side of the stream.
-/

/-- One observable outcome of a single byte-read attempt on the stream. -/
inductive Ev : Type
  | byte (b : Nat)
  | tick
  | err
deriving DecidableEq, Repr

/-- Whether `b` is a UTF-8 continuation byte (`0x80 ..= 0xBF`). -/
def isCont (b : Nat) : Bool := 0x80 ≤ b && b ≤ 0xBF

/-- UTF-8 validity of a byte list, as checked by Rust's `String::from_utf8`
(RFC 3629: no overlong encodings, no surrogates, max `U+10FFFF`). -/
def isValidUTF8 : List Nat → Bool
  | [] => true
  | b :: bs =>
    if b ≤ 0x7F then isValidUTF8 bs
    else if 0xC2 ≤ b && b ≤ 0xDF then
      match bs with
      | c1 :: r => isCont c1 && isValidUTF8 r
      | [] => false
    else if b = 0xE0 then
      match bs with
      | c1 :: c2 :: r => (0xA0 ≤ c1 && c1 ≤ 0xBF) && isCont c2 && isValidUTF8 r
      | _ => false
    else if (0xE1 ≤ b && b ≤ 0xEC) || b = 0xEE || b = 0xEF then
      match bs with
      | c1 :: c2 :: r => isCont c1 && isCont c2 && isValidUTF8 r
      | _ => false
    else if b = 0xED then
      match bs with
      | c1 :: c2 :: r => (0x80 ≤ c1 && c1 ≤ 0x9F) && isCont c2 && isValidUTF8 r
      | _ => false
    else if b = 0xF0 then
      match bs with
      | c1 :: c2 :: c3 :: r => (0x90 ≤ c1 && c1 ≤ 0xBF) && isCont c2 && isCont c3 && isValidUTF8 r
      | _ => false
    else if 0xF1 ≤ b && b ≤ 0xF3 then
      match bs with
      | c1 :: c2 :: c3 :: r => isCont c1 && isCont c2 && isCont c3 && isValidUTF8 r
      | _ => false
    else if b = 0xF4 then
      match bs with
      | c1 :: c2 :: c3 :: r => (0x80 ≤ c1 && c1 ≤ 0x8F) && isCont c2 && isCont c3 && isValidUTF8 r
      | _ => false
    else false

/-- Result of one of the engine's read operations on a finite trace. -/
inductive ReadOut : Type
  /-- The operation returned `Ok` with these chunk bytes, leaving this
  remainder of the trace unconsumed. -/
  | ok (s : List Nat) (rest : List Ev)
  /-- The operation returned `Err(FromUtf8Error)`. -/
  | decodeErr
  /-- The operation hit the `unwrap()` on a failed first-byte read. -/
  | panicked
  /-- The trace was exhausted with the operation still waiting for the next
  read to complete (on an infinite continuation it has not returned). -/
  | pending
deriving DecidableEq, Repr

/-- The loop body of `Engine::read_last_chunk` (src/common.rs lines 18-40).
`n` is `Self::REPEAT`; `buf` is the accumulator; `c` is the number of
entries of the `dropped` vector currently set to `true` (each consecutive
idle signal sets the first `false` entry and retries; a successful read
resets the whole vector).  When an idle signal finds every entry already
`true`, the loop returns `String::from_utf8(buf)`. -/
def readLastChunkGo (n : Nat) : List Ev → List Nat → Nat → ReadOut
  | [], _, _ => .pending
  | .byte b :: es, buf, _ => readLastChunkGo n es (buf ++ [b]) 0
  | .tick :: es, buf, c =>
    if c < n then readLastChunkGo n es buf (c + 1)
    else if isValidUTF8 buf then .ok buf es else .decodeErr
  | .err :: es, buf, c =>
    if c < n then readLastChunkGo n es buf (c + 1)
    else if isValidUTF8 buf then .ok buf es else .decodeErr

/-- `Engine::read_last_chunk` on a trace: the drain read, started with an
empty accumulator and a fresh `dropped` vector. -/
def read_last_chunk (n : Nat) (es : List Ev) : ReadOut :=
  readLastChunkGo n es [] 0

/-- `Engine::read_chunk` (src/common.rs lines 47-52): an untimed `read_u8`
(idle periods pass without effect), whose `Result` is `unwrap`ped, then
`String::from_utf8(vec![b])?` and concatenation with `read_last_chunk()?`. -/
def read_chunk (n : Nat) : List Ev → ReadOut
  | [] => .pending
  | .tick :: es => read_chunk n es
  | .err :: _ => .panicked
  | .byte b :: es =>
    if isValidUTF8 [b] then
      match read_last_chunk n es with
      | .ok s rest => .ok (b :: s) rest
      | .decodeErr => .decodeErr
      | .panicked => .panicked
      | .pending => .pending
    else .decodeErr

/-- Rust `str::split("\n")` on UTF-8 bytes: the segments between newline
bytes, in order, with `k` separators yielding `k + 1` segments (a trailing
separator contributes a trailing empty segment). -/
def splitNl : List Nat → List (List Nat)
  | [] => [[]]
  | b :: bs =>
    if b = 10 then [] :: splitNl bs
    else
      match splitNl bs with
      | [] => [[b]]
      | p :: ps => (b :: p) :: ps

/-- One write observed by the local sink (stdout). -/
inductive SinkEv : Type
  | writeAll (bs : List Nat)
  | writeU8 (b : Nat)
deriving DecidableEq, Repr

/-- Overall outcome of driving a `run_with_channel` future on a trace. -/
inductive Outcome : Type
  | success
  | decodeErr
  | panicked
  | pending
deriving DecidableEq, Repr

/-- The observable effects of driving the future returned by
`run_with_channel` to completion. -/
structure Effects : Type where
  outcome : Outcome
  /-- Writes performed on the local stdout sink, in order. -/
  sink : List SinkEv
  /-- Lines placed on the unbounded channel, in order. -/
  chan : List (List Nat)
  /-- Payloads written to the remote stream, in order. -/
  stream : List (List Nat)
deriving DecidableEq, Repr

/-- The free function `write` (src/common.rs lines 110-122) with
`Some(sender)`: if the sender is open, each `"\n"`-split part of the chunk
is sent on the channel; the chunk's bytes are always written to stdout.
`op` is whether the channel's receiving end is still alive.  Returns
(channel sends, stdout writes). -/
def write (chunk : List Nat) (op : Bool) : List (List Nat) × List SinkEv :=
  (if op then splitNl chunk else [], [SinkEv.writeAll chunk])

/-- The body of the future returned by `Engine::run_with_channel`
(src/common.rs lines 58-93), run to completion on a trace with a statically
open or closed channel (`op`).  Per payload: `write(read_chunk()?, sender)`,
then the joined pair of the remote write of the payload and the stdout echo
(payload bytes then one `b'\n'`).  After the plan: one `read_last_chunk`,
its `"\n"`-split parts sent on the channel when open, its bytes written to
stdout. -/
def runLoop (n : Nat) (op : Bool) : List (List Nat) → List Ev → Effects
  | [], es =>
    match read_last_chunk n es with
    | .ok chunk _ =>
      { outcome := .success
        sink := [SinkEv.writeAll chunk]
        chan := if op then splitNl chunk else []
        stream := [] }
    | .decodeErr => { outcome := .decodeErr, sink := [], chan := [], stream := [] }
    | .panicked => { outcome := .panicked, sink := [], chan := [], stream := [] }
    | .pending => { outcome := .pending, sink := [], chan := [], stream := [] }
  | p :: ps, es =>
    match read_chunk n es with
    | .ok chunk es' =>
      let rest := runLoop n op ps es'
      { outcome := rest.outcome
        sink := SinkEv.writeAll chunk :: SinkEv.writeAll p :: SinkEv.writeU8 10 :: rest.sink
        chan := (write chunk op).1 ++ rest.chan
        stream := p :: rest.stream }
    | .decodeErr => { outcome := .decodeErr, sink := [], chan := [], stream := [] }
    | .panicked => { outcome := .panicked, sink := [], chan := [], stream := [] }
    | .pending => { outcome := .pending, sink := [], chan := [], stream := [] }

/-- `Engine::run_with_channel` driven to completion: `op` records whether
the returned receiver handle is still alive while the future runs. -/
def run_with_channel (n : Nat) (op : Bool) (plan : List (List Nat)) (es : List Ev) : Effects :=
  runLoop n op plan es

/-- `Engine::run` (src/common.rs lines 101-107): the body returns
`self.run_with_channel(input).1`, dropping the receiver handle (`.0`)
before the future ever runs, so every `is_closed()` check observes a
closed channel. -/
def run (n : Nat) (plan : List (List Nat)) (es : List Ev) : Effects :=
  run_with_channel n false plan es

/-- The spec's description of `run`, stated independently of the code:
"`run` is defined as `run_with_channel` with the consumer handle discarded
and the task driven to completion immediately" — discarding the handle
closes the channel before the task runs. -/
def runSpec (n : Nat) (plan : List (List Nat)) (es : List Ev) : Effects :=
  run_with_channel n false plan es

/-- The loop of `Left::pad_left` (src/util/pad.rs lines 15-30): `r` starts
as `FINAL` zeroes; `for index in (0..FINAL).rev()`, `r[index]` is set to
`iterator.next()` (the next element from the FRONT of the input) or `0`.
The argument `k` is the number of indices still to process (the current
index is `k - 1`); `it` is the unconsumed remainder of the input. -/
def padLeftLoop : Nat → List Nat → List Nat → List Nat
  | 0, _, r => r
  | k + 1, [], r => padLeftLoop k [] (r.set k 0)
  | k + 1, b :: rest, r => padLeftLoop k rest (r.set k b)

/-- `Left::pad_left::<FINAL>` on a byte list. -/
def pad_left (FINAL : Nat) (s : List Nat) : List Nat :=
  padLeftLoop FINAL s (List.replicate FINAL 0)

/-- Fuel-indexed computation of the hex digits of `n`, most significant
first; any fuel `f ≥ n` gives the true digit list. -/
def hexDigitsF : Nat → Nat → List Nat
  | 0, n => [n % 16]
  | f + 1, n => if n < 16 then [n] else hexDigitsF f (n / 16) ++ [n % 16]

/-- The hex digits of `n`, most significant first, as produced by
`format!("{:x}", n)` (no leading zeroes; `0` formats as the single
digit `0`). -/
def hexDigits (n : Nat) : List Nat :=
  hexDigitsF n n

/-- The padding step of `hex_to_bytes` (src/util/mod.rs lines 31-37): a
leading `0` digit is prepended when the digit count is odd. -/
def hexPadEven (ds : List Nat) : List Nat :=
  if ds.length % 2 = 1 then 0 :: ds else ds

/-- The parsing loop of `hex_to_bytes` (src/util/mod.rs lines 39-43):
`chunks(2)` over the digit string, each pair parsed with
`u8::from_str_radix(_, 16)` (a final singleton chunk parses as itself). -/
def pairBytes : List Nat → List Nat
  | [] => []
  | [d] => [d]
  | d1 :: d2 :: rest => (16 * d1 + d2) :: pairBytes rest

/-- `HexToBytes::hex_to_bytes` (src/util/mod.rs lines 29-45) on a natural
number. -/
def hex_to_bytes (n : Nat) : List Nat :=
  pairBytes (hexPadEven (hexDigits n))

/-- Maps a transport-error event to an idle-timeout event, leaving other
events unchanged. -/
def errToTick : Ev → Ev
  | .err => .tick
  | e => e

/-- A trace made of bursts: for each pair `(g, b)` in `segs`, `g` idle
periods followed by the byte `b`; then `m` trailing idle periods. -/
def mkTrace (segs : List (Nat × Nat)) (m : Nat) : List Ev :=
  (segs.map fun gb => List.replicate gb.1 Ev.tick ++ [Ev.byte gb.2]).flatten
    ++ List.replicate m Ev.tick

/-- Applies `f` to every event of the trace remainder carried by an `ok`
result, leaving the other results unchanged. -/
def mapRest (f : Ev → Ev) : ReadOut → ReadOut
  | .ok s rest => .ok s (rest.map f)
  | r => r

/-- The chunks successively produced by `read_chunk` while the driver
consumes the plan (empty tail once a read stops succeeding). -/
def chunksOf (n : Nat) : List (List Nat) → List Ev → List (List Nat)
  | [], _ => []
  | _ :: ps, es =>
    match read_chunk n es with
    | .ok chunk es' => chunk :: chunksOf n ps es'
    | _ => []

/-- The trailing drain chunk produced by the final `read_last_chunk` after
the driver consumes the plan (empty if any read fails on the way). -/
def drainOf (n : Nat) : List (List Nat) → List Ev → List Nat
  | [], es =>
    match read_last_chunk n es with
    | .ok chunk _ => chunk
    | _ => []
  | _ :: ps, es =>
    match read_chunk n es with
    | .ok _ es' => drainOf n ps es'
    | _ => []

/-- The local-sink pattern of one completed driver run: for each
`(cᵢ, pᵢ)` a received-chunk write of `cᵢ` followed by the sent-payload
echo of `pᵢ` (its bytes then one `b'\n'`), and a final received write of
the drain chunk `d`. -/
def sinkSeq : List (List Nat) → List (List Nat) → List Nat → List SinkEv
  | c :: cs, p :: ps, d =>
    SinkEv.writeAll c :: SinkEv.writeAll p :: SinkEv.writeU8 10 :: sinkSeq cs ps d
  | _, _, d => [SinkEv.writeAll d]

/-! ### Lemmas about the drain read -/

theorem readLastChunkGo_ticks (n g : Nat) (es : List Ev) (buf : List Nat) (c : Nat)
    (h : c + g ≤ n) :
    readLastChunkGo n (List.replicate g Ev.tick ++ es) buf c
      = readLastChunkGo n es buf (c + g) := by
  induction g generalizing c with
  | zero => simp
  | succ g ih =>
    rw [List.replicate_succ, List.cons_append]
    simp only [readLastChunkGo]
    rw [if_pos (by omega), ih (c + 1) (by omega)]
    have hcg : c + 1 + g = c + (g + 1) := by omega
    rw [hcg]

theorem readLastChunkGo_boundary (n : Nat) (es : List Ev) (buf : List Nat) :
    readLastChunkGo n (List.replicate (n + 1) Ev.tick ++ es) buf 0
      = if isValidUTF8 buf then ReadOut.ok buf es else ReadOut.decodeErr := by
  rw [List.replicate_succ', List.append_assoc, List.singleton_append,
    readLastChunkGo_ticks n n _ buf 0 (by omega)]
  simp only [readLastChunkGo, Nat.zero_add]
  rw [if_neg (by omega)]

theorem mkTrace_nil (m : Nat) : mkTrace [] m = List.replicate m Ev.tick := by
  simp [mkTrace]

theorem mkTrace_cons (g b : Nat) (segs : List (Nat × Nat)) (m : Nat) :
    mkTrace ((g, b) :: segs) m
      = List.replicate g Ev.tick ++ Ev.byte b :: mkTrace segs m := by
  simp [mkTrace, List.append_assoc]

theorem readLastChunkGo_mkTrace (n : Nat) (segs : List (Nat × Nat)) (buf : List Nat)
    (hg : ∀ gb ∈ segs, gb.1 ≤ n) :
    readLastChunkGo n (mkTrace segs (n + 1)) buf 0
      = if isValidUTF8 (buf ++ segs.map Prod.snd) then
          ReadOut.ok (buf ++ segs.map Prod.snd) []
        else ReadOut.decodeErr := by
  induction segs generalizing buf with
  | nil =>
    rw [mkTrace_nil]
    simpa using readLastChunkGo_boundary n [] buf
  | cons gb segs ih =>
    obtain ⟨g, b⟩ := gb
    have hgle : (0 : Nat) + g ≤ n := by
      simpa using hg (g, b) (List.mem_cons_self _ _)
    rw [mkTrace_cons, readLastChunkGo_ticks n g _ buf 0 hgle]
    simp only [readLastChunkGo]
    rw [ih (buf ++ [b]) (fun gb hm => hg gb (List.mem_cons_of_mem _ hm))]
    simp [List.append_assoc]

/-- C1, counterexample: with `REPEAT = 1`, after a successful byte read
followed by exactly `1` idle timeout (the claim's boundary), the drain read
has not returned — it is still waiting on a further read; only a second
consecutive idle timeout makes it return the accumulated byte. -/
theorem c1_counterexample :
    read_last_chunk 1 [Ev.byte 97, Ev.tick] = ReadOut.pending ∧
      read_last_chunk 1 [Ev.byte 97, Ev.tick, Ev.tick] = ReadOut.ok [97] [] := by
  decide

/-- C1 (amended): for debounce count `n = REPEAT`, in a trace where each
successful byte read is preceded by at most `n` consecutive idle timeouts
(any successful read resets the idle counter) and which ends with `n + 1`
consecutive idle timeouts and no further read, `read_last_chunk` returns
exactly the bytes received before the final boundary, decoded as UTF-8. -/
theorem c1_read_last_chunk_debounce (n : Nat) (segs : List (Nat × Nat))
    (hg : ∀ gb ∈ segs, gb.1 ≤ n)
    (hv : isValidUTF8 (segs.map Prod.snd) = true) :
    read_last_chunk n (mkTrace segs (n + 1)) = ReadOut.ok (segs.map Prod.snd) [] := by
  rw [read_last_chunk, readLastChunkGo_mkTrace n segs [] hg]
  simp [hv]

/-- Witness for C1's amended theorem at `n = 1`,
`segs = [(1, 97), (0, 98)]`. -/
theorem c1_read_last_chunk_debounce_witness :
    read_last_chunk 1 (mkTrace [(1, 97), (0, 98)] 2) = ReadOut.ok [97, 98] [] :=
  c1_read_last_chunk_debounce 1 [(1, 97), (0, 98)] (by decide) (by decide)

/-- C3, counterexample: with `REPEAT = 1`, a transport error on the first
read attempt does not abort `read_last_chunk`: the byte arriving after it
is still read and returned successfully, the error having only consumed a
debounce slot. -/
theorem c3_counterexample :
    read_last_chunk 1 [Ev.err, Ev.byte 97, Ev.tick, Ev.tick] = ReadOut.ok [97] [] := by
  decide

theorem readLastChunkGo_errToTick (n : Nat) (es : List Ev) (buf : List Nat) (c : Nat) :
    readLastChunkGo n (es.map errToTick) buf c
      = mapRest errToTick (readLastChunkGo n es buf c) := by
  induction es generalizing buf c with
  | nil => rfl
  | cons e es ih =>
    cases e with
    | byte b =>
      simp only [List.map_cons, errToTick, readLastChunkGo]
      exact ih _ _
    | tick =>
      simp only [List.map_cons, errToTick, readLastChunkGo]
      by_cases h : c < n
      · rw [if_pos h, if_pos h, ih]
      · rw [if_neg h, if_neg h]
        by_cases hv : isValidUTF8 buf
        · rw [if_pos hv, if_pos hv]; rfl
        · rw [if_neg hv, if_neg hv]; rfl
    | err =>
      simp only [List.map_cons, errToTick, readLastChunkGo]
      by_cases h : c < n
      · rw [if_pos h, if_pos h, ih]
      · rw [if_neg h, if_neg h]
        by_cases hv : isValidUTF8 buf
        · rw [if_pos hv, if_pos hv]; rfl
        · rw [if_neg hv, if_neg hv]; rfl

theorem readLastChunkGo_cases (n : Nat) (es : List Ev) (buf : List Nat) (c : Nat) :
    readLastChunkGo n es buf c = ReadOut.pending
      ∨ readLastChunkGo n es buf c = ReadOut.decodeErr
      ∨ ∃ s rest, readLastChunkGo n es buf c = ReadOut.ok s rest := by
  induction es generalizing buf c with
  | nil => exact Or.inl rfl
  | cons e es ih =>
    cases e with
    | byte b => simpa only [readLastChunkGo] using ih (buf ++ [b]) 0
    | tick =>
      simp only [readLastChunkGo]
      by_cases h : c < n
      · simpa only [if_pos h] using ih buf (c + 1)
      · rw [if_neg h]
        by_cases hv : isValidUTF8 buf
        · exact Or.inr (Or.inr ⟨buf, es, by rw [if_pos hv]⟩)
        · exact Or.inr (Or.inl (by rw [if_neg hv]))
    | err =>
      simp only [readLastChunkGo]
      by_cases h : c < n
      · simpa only [if_pos h] using ih buf (c + 1)
      · rw [if_neg h]
        by_cases hv : isValidUTF8 buf
        · exact Or.inr (Or.inr ⟨buf, es, by rw [if_pos hv]⟩)
        · exact Or.inr (Or.inl (by rw [if_neg hv]))

/-- C3 (amended): a transport error during the drain read is consumed by
the debounce counter exactly like an idle timeout — replacing every
transport-error event of a trace by an idle timeout leaves the result of
the loop unchanged (up to the same replacement in the unconsumed trace
remainder) — and `read_last_chunk` never propagates an I/O failure: its
only possible results are a successful chunk, a UTF-8 decoding error, or
still waiting. -/
theorem c3_transport_error_as_idle :
    (∀ (n : Nat) (es : List Ev) (buf : List Nat) (c : Nat),
        readLastChunkGo n (es.map errToTick) buf c
          = mapRest errToTick (readLastChunkGo n es buf c)) ∧
      ∀ (n : Nat) (es : List Ev),
        read_last_chunk n es = ReadOut.pending
          ∨ read_last_chunk n es = ReadOut.decodeErr
          ∨ ∃ s rest, read_last_chunk n es = ReadOut.ok s rest :=
  ⟨readLastChunkGo_errToTick, fun n es => readLastChunkGo_cases n es [] 0⟩

/-! ### Lemmas about the full-chunk read -/

theorem read_chunk_cases (n : Nat) (es : List Ev) :
    read_chunk n es = ReadOut.panicked
      ∨ read_chunk n es = ReadOut.decodeErr
      ∨ read_chunk n es = ReadOut.pending
      ∨ ∃ b s rest, read_chunk n es = ReadOut.ok (b :: s) rest := by
  induction es with
  | nil => exact Or.inr (Or.inr (Or.inl rfl))
  | cons e es ih =>
    cases e with
    | tick => simpa only [read_chunk] using ih
    | err => exact Or.inl rfl
    | byte b =>
      simp only [read_chunk]
      by_cases hv : isValidUTF8 [b]
      · rw [if_pos hv]
        rcases readLastChunkGo_cases n es [] 0 with h | h | ⟨s, rest, h⟩ <;>
          rw [read_last_chunk, h]
        · exact Or.inr (Or.inr (Or.inl rfl))
        · exact Or.inr (Or.inl rfl)
        · exact Or.inr (Or.inr (Or.inr ⟨b, s, rest, rfl⟩))
      · rw [if_neg hv]
        exact Or.inr (Or.inl rfl)

/-- C4, counterexample: a transport error while reading the first byte of a
chunk makes `read_chunk` hit the `unwrap()` and crash, rather than
returning the error to the caller as an ordinary failure. -/
theorem c4_counterexample : read_chunk 1 [Ev.err] = ReadOut.panicked := by decide

/-- C4 (amended): a transport error on the first byte read makes
`read_chunk` crash (the `unwrap()` on the read result), not return an
ordinary failure; otherwise its result is one of: a non-empty text value,
a UTF-8 decoding error, or — the trace exhausted — no return at all.  An
I/O failure is never propagated as a returned error. -/
theorem c4_read_chunk_outcomes (n : Nat) (es : List Ev) :
    read_chunk n (Ev.err :: es) = ReadOut.panicked
      ∧ (read_chunk n es = ReadOut.panicked
          ∨ read_chunk n es = ReadOut.decodeErr
          ∨ read_chunk n es = ReadOut.pending
          ∨ ∃ b s rest, read_chunk n es = ReadOut.ok (b :: s) rest) :=
  ⟨rfl, read_chunk_cases n es⟩

/-- C5 (confirmed): whenever `read_chunk` returns successfully its chunk is
non-empty, and on a trace of idle periods with no data it never returns —
idle periods before the first byte produce neither a timeout error nor an
empty success. -/
theorem c5_read_chunk_nonempty_no_first_timeout :
    (∀ (n : Nat) (es : List Ev) (s : List Nat) (rest : List Ev),
        read_chunk n es = ReadOut.ok s rest → 0 < s.length) ∧
      ∀ (n k : Nat), read_chunk n (List.replicate k Ev.tick) = ReadOut.pending := by
  constructor
  · intro n es s rest h
    rcases read_chunk_cases n es with h' | h' | h' | ⟨b, s', rest', h'⟩
    · rw [h'] at h; exact absurd h (by simp)
    · rw [h'] at h; exact absurd h (by simp)
    · rw [h'] at h; exact absurd h (by simp)
    · rw [h'] at h
      obtain ⟨rfl, -⟩ := ReadOut.ok.inj h
      simp
  · intro n k
    induction k with
    | zero => rfl
    | succ k ih => simpa only [List.replicate_succ, read_chunk] using ih

/-- Witness for C5 at `n = 1` on the trace `[byte 97, tick, tick]`. -/
theorem c5_witness :
    read_chunk 1 [Ev.byte 97, Ev.tick, Ev.tick] = ReadOut.ok [97] [] ∧ 0 < [97].length :=
  ⟨by decide,
    c5_read_chunk_nonempty_no_first_timeout.1 1 [Ev.byte 97, Ev.tick, Ev.tick] [97] []
      (by decide)⟩

/-! ### The transaction driver -/

/-- C2 (confirmed): on every plan and trace on which the driver completes
successfully, the local sink observes, in order: for each payload, the
received-chunk write followed by the sent-payload echo (the payload's raw
bytes then one line-terminator byte), and one final received write of the
trailing drain chunk — `k + 1` received writes strictly alternating with
`k` sent echoes. -/
theorem c2_sink_alternation (n : Nat) (op : Bool) (plan : List (List Nat)) (es : List Ev)
    (h : (runLoop n op plan es).outcome = Outcome.success) :
    (chunksOf n plan es).length = plan.length ∧
      (runLoop n op plan es).sink
        = sinkSeq (chunksOf n plan es) plan (drainOf n plan es) := by
  induction plan generalizing es with
  | nil =>
    cases hr : read_last_chunk n es with
    | ok chunk rest => exact ⟨rfl, by simp [runLoop, hr, chunksOf, drainOf, sinkSeq]⟩
    | decodeErr => rw [runLoop, hr] at h; exact absurd h (by simp)
    | panicked => rw [runLoop, hr] at h; exact absurd h (by simp)
    | pending => rw [runLoop, hr] at h; exact absurd h (by simp)
  | cons p ps ih =>
    cases hr : read_chunk n es with
    | ok chunk es' =>
      have h' : (runLoop n op ps es').outcome = Outcome.success := by
        rw [runLoop, hr] at h; exact h
      obtain ⟨hlen, hs⟩ := ih es' h'
      refine ⟨by simp [chunksOf, hr, hlen], ?_⟩
      simp [runLoop, hr, chunksOf, drainOf, sinkSeq, hs]
    | decodeErr => rw [runLoop, hr] at h; exact absurd h (by simp)
    | panicked => rw [runLoop, hr] at h; exact absurd h (by simp)
    | pending => rw [runLoop, hr] at h; exact absurd h (by simp)

/-- Witness for C2: one payload `"x"`, prompt `"a"`, empty drain. -/
theorem c2_sink_alternation_witness :
    (runLoop 1 true [[120]] [Ev.byte 97, Ev.tick, Ev.tick, Ev.tick, Ev.tick]).outcome
        = Outcome.success ∧
      (chunksOf 1 [[120]] [Ev.byte 97, Ev.tick, Ev.tick, Ev.tick, Ev.tick]).length = 1 ∧
      (runLoop 1 true [[120]] [Ev.byte 97, Ev.tick, Ev.tick, Ev.tick, Ev.tick]).sink
        = sinkSeq (chunksOf 1 [[120]] [Ev.byte 97, Ev.tick, Ev.tick, Ev.tick, Ev.tick])
            [[120]] (drainOf 1 [[120]] [Ev.byte 97, Ev.tick, Ev.tick, Ev.tick, Ev.tick]) :=
  ⟨by decide,
    c2_sink_alternation 1 true [[120]] [Ev.byte 97, Ev.tick, Ev.tick, Ev.tick, Ev.tick]
      (by decide)⟩

/-- C6 (confirmed): `run` is exactly `run_with_channel` with the consumer
handle discarded before the task runs (so every channel check observes a
closed channel) and the task driven to completion: outcome and all effects
coincide. -/
theorem c6_run_refines_run_with_channel (n : Nat) (plan : List (List Nat)) (es : List Ev) :
    run n plan es = runSpec n plan es ∧
      run n plan es = run_with_channel n false plan es :=
  ⟨rfl, rfl⟩

/-- C7 (confirmed): when the consumer's receiving handle is dropped before
the driver's task runs, no line is ever placed on the channel, while the
outcome, the local-sink writes and the remote-stream writes are exactly
those of a run with a live consumer. -/
theorem c7_dropped_consumer (n : Nat) (plan : List (List Nat)) (es : List Ev) :
    (runLoop n false plan es).chan = []
      ∧ (runLoop n false plan es).outcome = (runLoop n true plan es).outcome
      ∧ (runLoop n false plan es).sink = (runLoop n true plan es).sink
      ∧ (runLoop n false plan es).stream = (runLoop n true plan es).stream := by
  induction plan generalizing es with
  | nil =>
    cases hr : read_last_chunk n es <;> simp [runLoop, hr]
  | cons p ps ih =>
    cases hr : read_chunk n es with
    | ok chunk es' =>
      obtain ⟨h1, h2, h3, h4⟩ := ih es'
      simp [runLoop, hr, write, h1, h2, h3, h4]
    | decodeErr => simp [runLoop, hr]
    | panicked => simp [runLoop, hr]
    | pending => simp [runLoop, hr]

/-- C8 (code bug): `pad_left` consumes the input from the front while
filling the output from index `FINAL - 1` downward, so the kept bytes come
out reversed, and on over-long input the first `FINAL` bytes are kept
instead of the last: `pad_left 4 [1, 2]` is `[0, 0, 2, 1]`, not the
documented `[0, 0, 1, 2]`, and `pad_left 2 [1, 2, 3]` is `[2, 1]`, not
`[2, 3]`. -/
theorem c8_pad_left_reversal :
    pad_left 4 [1, 2] = [0, 0, 2, 1] ∧ pad_left 2 [1, 2, 3] = [2, 1] := by decide

/-- C9 (confirmed): the fan-out sink splits the chunk `"a\nb\nc"` into the
lines `["a", "b", "c"]` and the chunk `"a\n"` into `["a", ""]` (trailing
empty entry included). -/
theorem c9_split_lines :
    (write [97, 10, 98, 10, 99] true).1 = [[97], [98], [99]] ∧
      (write [97, 10] true).1 = [[97], []] := by decide

/-! ### The hex encoder -/

theorem foldl16_hexDigitsF (f : Nat) :
    ∀ (n : Nat), n ≤ f → ∀ (acc : Nat),
      List.foldl (fun a d => 16 * a + d) acc (hexDigitsF f n)
        = acc * 16 ^ (hexDigitsF f n).length + n := by
  induction f with
  | zero =>
    intro n hn acc
    have hn0 : n = 0 := by omega
    subst hn0
    simp [hexDigitsF]
    ring
  | succ f ih =>
    intro n hn acc
    by_cases h16 : n < 16
    · simp [hexDigitsF, h16]
      omega
    · have hstep : hexDigitsF (f + 1) n = hexDigitsF f (n / 16) ++ [n % 16] := by
        simp [hexDigitsF, h16]
      have hdiv : n / 16 ≤ f := by omega
      have hlen : (hexDigitsF f (n / 16) ++ [n % 16]).length
          = (hexDigitsF f (n / 16)).length + 1 := by simp
      rw [hstep, List.foldl_append, ih (n / 16) hdiv acc, hlen]
      simp only [List.foldl_cons, List.foldl_nil]
      have hdm := Nat.div_add_mod n 16
      have hpow : (16 : Nat) ^ ((hexDigitsF f (n / 16)).length + 1)
          = 16 ^ (hexDigitsF f (n / 16)).length * 16 := pow_succ 16 _
      calc 16 * (acc * 16 ^ (hexDigitsF f (n / 16)).length + n / 16) + n % 16
          = acc * (16 ^ (hexDigitsF f (n / 16)).length * 16)
              + (16 * (n / 16) + n % 16) := by ring
        _ = acc * (16 ^ (hexDigitsF f (n / 16)).length * 16) + n := by rw [hdm]
        _ = acc * 16 ^ ((hexDigitsF f (n / 16)).length + 1) + n := by rw [hpow]

theorem foldl16_hexDigits (n : Nat) :
    List.foldl (fun a d => 16 * a + d) 0 (hexDigits n) = n := by
  simpa using foldl16_hexDigitsF n n le_rfl 0

theorem foldl16_hexPadEven (ds : List Nat) :
    List.foldl (fun a d => 16 * a + d) 0 (hexPadEven ds)
      = List.foldl (fun a d => 16 * a + d) 0 ds := by
  by_cases h : ds.length % 2 = 1 <;> simp [hexPadEven, h]

theorem hexPadEven_even (ds : List Nat) : (hexPadEven ds).length % 2 = 0 := by
  by_cases h : ds.length % 2 = 1 <;> simp [hexPadEven, h] <;> omega

theorem hexPadEven_halfLen (ds : List Nat) :
    ((hexPadEven ds).length + 1) / 2 = (ds.length + 1) / 2 := by
  by_cases h : ds.length % 2 = 1
  · simp [hexPadEven, h]
    omega
  · simp [hexPadEven, h]


theorem pairBytes_length (ds : List Nat) :
    (pairBytes ds).length = (ds.length + 1) / 2 := by
  induction ds using pairBytes.induct with
  | case1 => rfl
  | case2 d => simp [pairBytes]
  | case3 d1 d2 rest ih => simp [pairBytes, ih]; omega

theorem foldl256_pairBytes (ds : List Nat) :
    ds.length % 2 = 0 → ∀ (acc : Nat),
      List.foldl (fun a b => 256 * a + b) acc (pairBytes ds)
        = List.foldl (fun a d => 16 * a + d) acc ds := by
  induction ds using pairBytes.induct with
  | case1 => intro _ _; rfl
  | case2 d => intro h; simp at h
  | case3 d1 d2 rest ih =>
    intro h acc
    have hrest : rest.length % 2 = 0 := by simp at h; omega
    simp only [pairBytes, List.foldl_cons]
    rw [show 256 * acc + (16 * d1 + d2) = 16 * (16 * acc + d1) + d2 by ring]
    exact ih hrest _

/-- C10 (confirmed): `hex_to_bytes n` is the big-endian base-256 encoding
of `n` whose length is the number of hex digits of `n` divided by two
rounded up; folding the returned bytes back as a big-endian number yields
`n`, and `0x10203040` maps to `[0x10, 0x20, 0x30, 0x40]`. -/
theorem c10_hex_to_bytes_roundtrip (n : Nat) :
    (hex_to_bytes n).length = ((hexDigits n).length + 1) / 2 ∧
      List.foldl (fun a b => 256 * a + b) 0 (hex_to_bytes n) = n ∧
      hex_to_bytes 0x10203040 = [0x10, 0x20, 0x30, 0x40] := by
  refine ⟨?_, ?_, by decide⟩
  · rw [hex_to_bytes, pairBytes_length, hexPadEven_halfLen]
  · rw [hex_to_bytes, foldl256_pairBytes _ (hexPadEven_even _), foldl16_hexPadEven,
      foldl16_hexDigits]
